import Mathlib

/-!
# NES CPU core (`cpu.c`, `cpu.h`): shallow embedding and verified properties

The C program keeps one global `struct CPU cpu`.  Here the global is an explicit
value of type `NES.CPU` threaded through every operation.  Machine integers are
natural numbers; every store into a `uint8_t` / `uint16_t` object that can leave
the range is followed by an explicit `% 2^w`.

* `cpu.memory` is a pointer to a RAM buffer allocated elsewhere; it is modelled
  as a total map from index to byte.  `ppu_regs[8]` and `apu_io_regs[0x18]` are
  modelled the same way; the indices the router computes are given by
  `ramIndex`, `ppuIndex` and `apuIndex`.
* `rom` (declared in `rom.h`, not part of these sources) is consumed through
  `rom.readCPUMapper` and `rom.PRG_ROM_data`; both are taken as parameters
  (`NES.Rom`).
* `cpu.fail`, `handleControl`, `handleALU`, `handleRMW` and `log_state` are
  code outside these sources.  They are parameters (`NES.Externs`), each an
  arbitrary transformer of the CPU state, and every invocation made by the
  code embedded here is appended to a call log (`NES.Machine.calls`).
* `printf` output is not modelled.
-/

namespace NES

/-! ## Data model (`cpu.h`) -/

/-- The fields of `struct CPU` that the core reads or writes.  The three
disassembly fields (`asm_argc`, `instruction`, `asm_args`) are never touched by
`cpu.c` or by the macros of `cpu.h`; the function pointer `fail` lives in
`Externs`. -/
structure CPU where
  x : Nat
  y : Nat
  a : Nat
  pc : Nat
  status : Nat
  sp : Nat
  memory : Nat → Nat
  ppu_regs : Nat → Nat
  apu_io_regs : Nat → Nat
  cycles : Nat
  opcode : Nat
  low : Nat
  high : Nat

/-- The cartridge interface used by `cpu_read`: `rom.readCPUMapper(addr, &mapped)`
returns `some mapped` when it reports success and `none` when it reports
failure; `rom.PRG_ROM_data[i]` is `PRG_ROM_data i`. -/
structure Rom where
  readCPUMapper : Nat → Option Nat
  PRG_ROM_data : Nat → Nat

/-! `enum flags` -/

def carry : Nat := 1 <<< 0
def zero : Nat := 1 <<< 1
def irq : Nat := 1 <<< 2
def decimal : Nat := 1 <<< 3
def b_flag : Nat := 1 <<< 4
def always_on_flag : Nat := 1 <<< 5
def overflow : Nat := 1 <<< 6
def negative : Nat := 1 <<< 7

/-- Test one flag of a status byte: `status & flag` is non-zero. -/
def flagSet (status flag : Nat) : Bool := (status &&& flag) != 0

/-! ## Memory bus router (`cpu.c`) -/

/-- The branch of the `if / else if` chain shared by `cpu_read` and `cpu_write`
that an address selects; `unmapped` is the final `else`. -/
inductive Region where
  | ram
  | ppu
  | apu_io
  | test_mode
  | cartridge
  | unmapped
  deriving DecidableEq, Repr

/-- The chain of range tests of `cpu_read` / `cpu_write`, in source order. -/
def decode (addr : Nat) : Region :=
  if 0x0000 ≤ addr ∧ addr ≤ 0x1FFF then Region.ram
  else if 0x2000 ≤ addr ∧ addr ≤ 0x3FFF then Region.ppu
  else if 0x4000 ≤ addr ∧ addr ≤ 0x4017 then Region.apu_io
  else if 0x4018 ≤ addr ∧ addr ≤ 0x401F then Region.test_mode
  else if 0x4020 ≤ addr ∧ addr ≤ 0xFFFF then Region.cartridge
  else Region.unmapped

/-- Index into `cpu.memory`: `addr & 0x07FF`. -/
def ramIndex (addr : Nat) : Nat := addr &&& 0x07FF

/-- Index into `cpu.ppu_regs`: `(addr - 0x2000) % 8`. -/
def ppuIndex (addr : Nat) : Nat := (addr - 0x2000) % 8

/-- Index into `cpu.apu_io_regs`: `addr - 0x4000`. -/
def apuIndex (addr : Nat) : Nat := addr - 0x4000

/-- Store `v` at index `i` of an array. -/
def store (arr : Nat → Nat) (i v : Nat) : Nat → Nat :=
  fun j => if j = i then v else arr j

/-- Function `bool cpu_read(uint16_t addr, uint8_t *data)`.  The argument `data` is the
byte `*data` holds on entry; the result is the returned flag together with the
byte `*data` holds on exit (branches that do not assign leave it as it was). -/
def cpu_read (R : Rom) (c : CPU) (addr : Nat) (data : Nat) : Bool × Nat :=
  match decode addr with
  | Region.ram => (true, c.memory (ramIndex addr))
  | Region.ppu => (true, c.ppu_regs (ppuIndex addr))
  | Region.apu_io => (true, c.apu_io_regs (apuIndex addr))
  | Region.test_mode => (true, data)
  | Region.cartridge =>
    match R.readCPUMapper addr with
    | none => (false, data)
    | some mapped_addr => (true, R.PRG_ROM_data mapped_addr)
  | Region.unmapped => (false, data)

/-- Function `bool cpu_write(uint16_t addr, uint8_t *data)`.  The argument `data` is the
byte `*data`; the result is the returned flag together with the new state. -/
def cpu_write (c : CPU) (addr : Nat) (data : Nat) : Bool × CPU :=
  match decode addr with
  | Region.ram => (true, { c with memory := store c.memory (ramIndex addr) data })
  | Region.ppu => (true, { c with ppu_regs := store c.ppu_regs (ppuIndex addr) data })
  | Region.apu_io => (true, { c with apu_io_regs := store c.apu_io_regs (apuIndex addr) data })
  | Region.test_mode => (true, c)
  | Region.cartridge => (false, c)
  | Region.unmapped => (false, c)

/-! ## Flag macros (`cpu.h`)

Each macro is a statement block acting on the global `cpu.status`.  In every
macro the `else` branch is the expression statement `cpu.status & ~flag;`,
which computes a value and stores nothing, so that branch returns the state
as it is. -/

/-- Macro `SET_ZERO_FLAG(X)`. -/
def SET_ZERO_FLAG (c : CPU) (X : Nat) : CPU :=
  if X = 0 then { c with status := (c.status ||| zero) % 256 }
  else c

/-- Macro `SET_NEG_FLAG(X)`. -/
def SET_NEG_FLAG (c : CPU) (X : Nat) : CPU :=
  if X > 0x7F then { c with status := (c.status ||| negative) % 256 }
  else c

/-- Macro `SET_OVERFLOW_FLAG(X, BYTE, CARRY)`. -/
def SET_OVERFLOW_FLAG (c : CPU) (X BYTE CARRY : Nat) : CPU :=
  if (X ≤ 0x7F ∧ X % 65536 + BYTE % 65536 + CARRY > 0x7F) ∨
     (X > 0x7F ∧ X % 65536 + BYTE % 65536 + CARRY > 0xFF)
  then { c with status := (c.status ||| overflow) % 256 }
  else c

/-- Macro `SET_CARRY_FLAG(X, BYTE, CARRY)`. -/
def SET_CARRY_FLAG (c : CPU) (X BYTE CARRY : Nat) : CPU :=
  if X % 65536 + BYTE % 65536 + CARRY > 0xFF
  then { c with status := (c.status ||| carry) % 256 }
  else c

/-- Macro `CHECK_PAGE_BOUNDARY(ADDR, REG)`:
`((uint16_t) (ADDR - REG) % 0xFF) + REG <= 0xFF`.  The subtraction is done in
`int`, the cast applies to the difference, the remainder is by `0xFF`. -/
def CHECK_PAGE_BOUNDARY (ADDR REG : Nat) : Bool :=
  decide ((((ADDR : Int) - (REG : Int)) % 65536).toNat % 0xFF + REG ≤ 0xFF)

/-! ## External code and the call log -/

/-- The functions called by `cpu.c` whose bodies are outside these sources. -/
inductive Call where
  | fail
  | handleControl
  | handleALU
  | handleRMW
  | log_state
  deriving DecidableEq, Repr

/-- The effect on the CPU state of each external function. -/
structure Externs where
  fail : CPU → CPU
  handleControl : CPU → CPU
  handleALU : CPU → CPU
  handleRMW : CPU → CPU
  log_state : CPU → CPU

/-- The transformer an external call stands for. -/
def Externs.run (X : Externs) : Call → CPU → CPU
  | Call.fail => X.fail
  | Call.handleControl => X.handleControl
  | Call.handleALU => X.handleALU
  | Call.handleRMW => X.handleRMW
  | Call.log_state => X.log_state

/-- The CPU state together with the log of external calls made so far, oldest
first. -/
structure Machine where
  cpu : CPU
  calls : List Call

/-- Invoke an external function: apply its effect and log the call. -/
def call (X : Externs) (k : Call) (m : Machine) : Machine :=
  { cpu := X.run k m.cpu, calls := m.calls ++ [k] }

/-! ## Fetch macros (`cpu.h`) -/

/-- An lvalue of type `uint8_t` inside `cpu`, as passed to the fetch macros. -/
structure Slot where
  get : CPU → Nat
  set : CPU → Nat → CPU

/-- The lvalue `cpu.opcode`. -/
def opcodeSlot : Slot := ⟨fun c => c.opcode, fun c v => { c with opcode := v }⟩

/-- The lvalue `cpu.low`. -/
def lowSlot : Slot := ⟨fun c => c.low, fun c v => { c with low := v }⟩

/-- The lvalue `cpu.high`. -/
def highSlot : Slot := ⟨fun c => c.high, fun c v => { c with high := v }⟩

/-- Macro `READ_BYTE_FROM_ADDR(ADDR, X)`: `cpu_read(ADDR, &X)` (the address converted
to `uint16_t`), and `cpu.fail()` when it returns false.  Nothing follows the
call of `cpu.fail()` inside the macro, so when the callback returns execution
goes on after the macro. -/
def READ_BYTE_FROM_ADDR (R : Rom) (X : Externs) (ADDR : Nat) (S : Slot) (m : Machine) : Machine :=
  let r := cpu_read R m.cpu (ADDR % 65536) (S.get m.cpu)
  let m1 : Machine := { m with cpu := S.set m.cpu r.2 }
  if r.1 then m1 else call X Call.fail m1

/-- Macro `READ_BYTE(X)`: `READ_BYTE_FROM_ADDR(cpu.pc, X)`. -/
def READ_BYTE (R : Rom) (X : Externs) (S : Slot) (m : Machine) : Machine :=
  READ_BYTE_FROM_ADDR R X m.cpu.pc S m

/-- Macro `READ_BYTE_PC(X)`: `READ_BYTE(X)` then `cpu.pc++`. -/
def READ_BYTE_PC (R : Rom) (X : Externs) (S : Slot) (m : Machine) : Machine :=
  let m1 := READ_BYTE R X S m
  { m1 with cpu := { m1.cpu with pc := (m1.cpu.pc + 1) % 65536 } }

/-- Macro `READ_WORD(ADDR)`: read `cpu.low` at `ADDR` and `cpu.high` at `ADDR + 1`. -/
def READ_WORD (R : Rom) (X : Externs) (ADDR : Nat) (m : Machine) : Machine :=
  READ_BYTE_FROM_ADDR R X (ADDR + 1) highSlot (READ_BYTE_FROM_ADDR R X ADDR lowSlot m)

/-- Macro `READ_WORD_PC()`: `READ_BYTE(cpu.low)` then `READ_BYTE(cpu.high)`. -/
def READ_WORD_PC (R : Rom) (X : Externs) (m : Machine) : Machine :=
  READ_BYTE R X highSlot (READ_BYTE R X lowSlot m)

/-- Macro `SET_ADDR(ADDR, OFFSET)`: the value stored into the 16-bit `ADDR`,
`((((uint16_t) cpu.high) << 8) | (uint16_t) cpu.low) + OFFSET`. -/
def SET_ADDR (c : CPU) (OFFSET : Nat) : Nat :=
  ((((c.high % 65536) <<< 8) ||| (c.low % 65536)) + OFFSET) % 65536

/-! ## Reset and clock (`cpu.c`) -/

/-- Function `void cpu_reset()`.  The local `lo` is declared without an initialiser;
`lo0` is the byte it happens to hold.  `hi` is initialised to 0 and the second
read is evaluated only when the first one succeeded (`||`).  The assignments
after the `if` are not guarded. -/
def cpu_reset (R : Rom) (X : Externs) (lo0 : Nat) (m : Machine) : Machine :=
  let r1 := cpu_read R m.cpu 0xFFFC lo0
  let r2 := cpu_read R m.cpu 0xFFFD 0
  let lo := r1.2
  let hi := if r1.1 then r2.2 else 0
  let m1 := if !r1.1 || !r2.1 then call X Call.fail m else m
  { m1 with cpu :=
      { m1.cpu with
        pc := ((hi <<< 8) ||| lo) % 65536
        cycles := 0
        a := 0
        x := 0
        y := 0
        sp := 0x100 % 256
        status := (0x00 ||| always_on_flag) % 256 } }

/-- Function `void cpu_clock()`. -/
def cpu_clock (R : Rom) (X : Externs) (m : Machine) : Machine :=
  let m1 := READ_BYTE_PC R X opcodeSlot m
  let m2 : Machine := { m1 with cpu := { m1.cpu with high := 0, low := 0 } }
  let m3 :=
    if m2.cpu.opcode % 4 = 0 then call X Call.handleControl m2
    else if m2.cpu.opcode % 4 = 1 then call X Call.handleALU m2
    else if m2.cpu.opcode % 4 = 2 then call X Call.handleRMW m2
    else call X Call.fail m2
  call X Call.log_state m3

/-! ## Storage cells and operation sequences -/

/-- The storage cell of the router that an address resolves to in `cpu_read` and
`cpu_write`: the array (named by its region) and the index computed by the
source, or `none` for the branches that touch no owned array. -/
def cellOf (addr : Nat) : Option (Region × Nat) :=
  match decode addr with
  | Region.ram => some (Region.ram, ramIndex addr)
  | Region.ppu => some (Region.ppu, ppuIndex addr)
  | Region.apu_io => some (Region.apu_io, apuIndex addr)
  | Region.test_mode => none
  | Region.cartridge => none
  | Region.unmapped => none

/-- The length of the array behind each region: `ramLen` bytes for the buffer
`cpu.memory` points to, 8 for `ppu_regs[8]`, `0x18` for `apu_io_regs[0x18]`. -/
def arrayLength (ramLen : Nat) : Region → Nat
  | Region.ram => ramLen
  | Region.ppu => 8
  | Region.apu_io => 0x18
  | Region.test_mode => 0
  | Region.cartridge => 0
  | Region.unmapped => 0

/-- The array of the CPU state behind each region (the constant-zero map for
the regions that have none). -/
def arrayOf (c : CPU) : Region → Nat → Nat
  | Region.ram => c.memory
  | Region.ppu => c.ppu_regs
  | Region.apu_io => c.apu_io_regs
  | Region.test_mode => fun _ => 0
  | Region.cartridge => fun _ => 0
  | Region.unmapped => fun _ => 0

/-- The operations of the core that can run between a reset and any later
state: the four flag macros, `cpu_read`, `cpu_write`, and the opcode fetch
`READ_BYTE_PC(cpu.opcode)` of `cpu_clock`. -/
inductive Op where
  | setZero (X : Nat)
  | setNeg (X : Nat)
  | setOverflow (X BYTE CARRY : Nat)
  | setCarry (X BYTE CARRY : Nat)
  | read (addr data : Nat)
  | write (addr data : Nat)
  | fetch

/-- Run one operation.  `cpu_read` stores only through its `data` pointer, here
a caller's local, so it leaves the machine as it is. -/
def step (R : Rom) (X : Externs) : Op → Machine → Machine
  | Op.setZero v, m => { m with cpu := SET_ZERO_FLAG m.cpu v }
  | Op.setNeg v, m => { m with cpu := SET_NEG_FLAG m.cpu v }
  | Op.setOverflow v b c, m => { m with cpu := SET_OVERFLOW_FLAG m.cpu v b c }
  | Op.setCarry v b c, m => { m with cpu := SET_CARRY_FLAG m.cpu v b c }
  | Op.read _ _, m => m
  | Op.write addr b, m => { m with cpu := (cpu_write m.cpu addr b).2 }
  | Op.fetch, m => READ_BYTE_PC R X opcodeSlot m

/-- Run a sequence of operations, first to last. -/
def run (R : Rom) (X : Externs) (ops : List Op) (m : Machine) : Machine :=
  ops.foldl (fun acc op => step R X op acc) m

/-! ## Predicates taken from the specification, for comparison with the code -/

/-- Signed overflow of `value + operand + c` as the specification words it:
`value` and `operand` have the same sign bit and the 8-bit result
`(value + operand + c) mod 256` has the opposite sign bit. -/
def specSignedOverflow (value operand c : Nat) : Bool :=
  (decide (value > 0x7F) == decide (operand > 0x7F)) &&
  (decide ((value + operand + c) % 256 > 0x7F) != decide (value > 0x7F))

/-- The overflow condition as the specification writes it:
`(value <= 0x7F AND sum > 0x7F) OR (value > 0x7F AND sum > 0xFF)`, where `sum`
is `value + operand + c` before truncation. -/
def specOverflowFormula (value operand c : Nat) : Bool :=
  (decide (value ≤ 0x7F) && decide (value + operand + c > 0x7F)) ||
  (decide (value > 0x7F) && decide (value + operand + c > 0xFF))

/-! ## Concrete inputs used to instantiate the theorems -/

/-- A CPU state with every register and every memory cell zero. -/
def zeroCPU : CPU :=
  { x := 0, y := 0, a := 0, pc := 0, status := 0, sp := 0,
    memory := fun _ => 0, ppu_regs := fun _ => 0, apu_io_regs := fun _ => 0,
    cycles := 0, opcode := 0, low := 0, high := 0 }

/-- A cartridge whose mapper rejects every address. -/
def emptyRom : Rom := ⟨fun _ => none, fun _ => 0⟩

/-- A cartridge mapping `0x8000..0xFFFF` onto offsets `0..0x7FFF`, with the
reset vector bytes `0x34`, `0x12` at `0xFFFC`, `0xFFFD`. -/
def vectorRom : Rom :=
  ⟨fun addr => if 0x8000 ≤ addr then some (addr - 0x8000) else none,
   fun i => if i = 0x7FFC then 0x34 else if i = 0x7FFD then 0x12 else 0⟩

/-- A CPU state with `PC = 0` and the bytes `0x34`, `0x12` in RAM at addresses 0
and 1. -/
def wordCPU : CPU :=
  { zeroCPU with memory := fun i => if i = 0 then 0x34 else if i = 1 then 0x12 else 0 }

/-- A CPU state whose registers are all non-zero. -/
def busyCPU : CPU :=
  { zeroCPU with a := 1, x := 2, y := 3, pc := 0x4444, status := 0xFF, sp := 0xFD, cycles := 7 }

/-- External functions that return at once and leave the CPU state alone. -/
def idExterns : Externs := ⟨id, id, id, id, id⟩

/-! ## Auxiliary lemmas -/

theorem decode_ram {addr : Nat} (h : addr ≤ 0x1FFF) : decode addr = Region.ram := by
  unfold decode
  simp [h]

theorem decode_ppu {addr : Nat} (h1 : 0x2000 ≤ addr) (h2 : addr ≤ 0x3FFF) :
    decode addr = Region.ppu := by
  unfold decode
  rw [if_neg (by omega), if_pos ⟨h1, h2⟩]

theorem decode_apu_io {addr : Nat} (h1 : 0x4000 ≤ addr) (h2 : addr ≤ 0x4017) :
    decode addr = Region.apu_io := by
  unfold decode
  rw [if_neg (by omega), if_neg (by omega), if_pos ⟨h1, h2⟩]

theorem decode_test_mode {addr : Nat} (h1 : 0x4018 ≤ addr) (h2 : addr ≤ 0x401F) :
    decode addr = Region.test_mode := by
  unfold decode
  rw [if_neg (by omega), if_neg (by omega), if_neg (by omega), if_pos ⟨h1, h2⟩]

theorem decode_cartridge {addr : Nat} (h1 : 0x4020 ≤ addr) (h2 : addr ≤ 0xFFFF) :
    decode addr = Region.cartridge := by
  unfold decode
  rw [if_neg (by omega), if_neg (by omega), if_neg (by omega), if_neg (by omega),
    if_pos ⟨h1, h2⟩]

theorem decode_unmapped {addr : Nat} (h : 0xFFFF < addr) : decode addr = Region.unmapped := by
  unfold decode
  rw [if_neg (by omega), if_neg (by omega), if_neg (by omega), if_neg (by omega),
    if_neg (by omega)]

theorem ramIndex_eq_mod (addr : Nat) : ramIndex addr = addr % 0x0800 := by
  unfold ramIndex
  exact Nat.and_pow_two_sub_one_eq_mod addr 11

theorem store_same (arr : Nat → Nat) (i v : Nat) : store arr i v i = v := by
  simp [store]

theorem store_other (arr : Nat → Nat) {i j : Nat} (v : Nat) (h : j ≠ i) :
    store arr i v j = arr j := by
  simp [store, h]

/-- A RAM write followed by a RAM read at an address with the same index. -/
theorem ram_write_read (R : Rom) (c : CPU) (a1 a2 b d : Nat)
    (h1 : a1 ≤ 0x1FFF) (h2 : a2 ≤ 0x1FFF) (hm : ramIndex a1 = ramIndex a2) :
    (cpu_write c a1 b).1 = true ∧ cpu_read R (cpu_write c a1 b).2 a2 d = (true, b) := by
  simp only [cpu_write, cpu_read, decode_ram h1, decode_ram h2, hm, store_same, and_self]

/-- A register-window write followed by a read at an address with the same index. -/
theorem ppu_write_read (R : Rom) (c : CPU) (a1 a2 b d : Nat)
    (h1 : 0x2000 ≤ a1 ∧ a1 ≤ 0x3FFF) (h2 : 0x2000 ≤ a2 ∧ a2 ≤ 0x3FFF)
    (hm : ppuIndex a1 = ppuIndex a2) :
    (cpu_write c a1 b).1 = true ∧ cpu_read R (cpu_write c a1 b).2 a2 d = (true, b) := by
  simp only [cpu_write, cpu_read, decode_ppu h1.1 h1.2, decode_ppu h2.1 h2.2, hm, store_same,
    and_self]

/-! ## Claims -/

/-- C1. RAM mirroring: after `cpu_write(offset, b)` with `offset < 0x0800`, which
returns true, `cpu_read(k*0x0800 + offset)` returns true and yields `b` for every
`k` in 0..3; and a write at any `a1` in `0x0000..0x1FFF` is read back at any `a2`
in that range with `(a1 & 0x07FF) == (a2 & 0x07FF)`. -/
theorem ram_mirroring (R : Rom) (c : CPU) (offset k a1 a2 b d : Nat)
    (ho : offset < 0x0800) (hk : k < 4)
    (h1 : a1 ≤ 0x1FFF) (h2 : a2 ≤ 0x1FFF) (hm : a1 &&& 0x07FF = a2 &&& 0x07FF) :
    ((cpu_write c offset b).1 = true ∧
      cpu_read R (cpu_write c offset b).2 (k * 0x0800 + offset) d = (true, b)) ∧
    ((cpu_write c a1 b).1 = true ∧
      cpu_read R (cpu_write c a1 b).2 a2 d = (true, b)) := by
  refine ⟨?_, ram_write_read R c a1 a2 b d h1 h2 hm⟩
  apply ram_write_read R c offset (k * 0x0800 + offset) b d (by omega) (by omega)
  rw [ramIndex_eq_mod, ramIndex_eq_mod]
  omega

/-- Instance of C1: offset `0x0123`, mirror `k = 2`, and the pair `0x1FFF`, `0x07FF`. -/
theorem ram_mirroring_witness :
    (0x0123 < 0x0800 ∧ 2 < 4 ∧ 0x1FFF ≤ 0x1FFF ∧ 0x07FF ≤ 0x1FFF ∧
      0x1FFF &&& 0x07FF = 0x07FF &&& 0x07FF) ∧
    ((cpu_write zeroCPU 0x0123 0xAB).1 = true ∧
      cpu_read emptyRom (cpu_write zeroCPU 0x0123 0xAB).2 (2 * 0x0800 + 0x0123) 0
        = (true, 0xAB)) ∧
    ((cpu_write zeroCPU 0x1FFF 0xAB).1 = true ∧
      cpu_read emptyRom (cpu_write zeroCPU 0x1FFF 0xAB).2 0x07FF 0 = (true, 0xAB)) :=
  ⟨by decide,
   ram_mirroring emptyRom zeroCPU 0x0123 2 0x1FFF 0x07FF 0xAB 0
     (by decide) (by decide) (by decide) (by decide) (by decide)⟩

/-- C2. Register-window mirroring: for `n < 0x2000` and `r` in 0..7 with
`n mod 8 == r`, a write at `0x2000 + n` returns true and is read back at
`0x2000 + r`, and a write at `0x2000 + r` returns true and is read back at
`0x2000 + n`. -/
theorem register_window_mirroring (R : Rom) (c : CPU) (n r b d : Nat)
    (hn : n < 0x2000) (hr : r < 8) (hnr : n % 8 = r) :
    ((cpu_write c (0x2000 + n) b).1 = true ∧
      cpu_read R (cpu_write c (0x2000 + n) b).2 (0x2000 + r) d = (true, b)) ∧
    ((cpu_write c (0x2000 + r) b).1 = true ∧
      cpu_read R (cpu_write c (0x2000 + r) b).2 (0x2000 + n) d = (true, b)) := by
  have hidx : ppuIndex (0x2000 + n) = ppuIndex (0x2000 + r) := by
    unfold ppuIndex
    omega
  exact ⟨ppu_write_read R c _ _ b d ⟨by omega, by omega⟩ ⟨by omega, by omega⟩ hidx,
    ppu_write_read R c _ _ b d ⟨by omega, by omega⟩ ⟨by omega, by omega⟩ hidx.symm⟩

/-- Instance of C2: `n = 0x1FFD` (address `0x3FFD`) and `r = 5` (address `0x2005`). -/
theorem register_window_mirroring_witness :
    (0x1FFD < 0x2000 ∧ 5 < 8 ∧ 0x1FFD % 8 = 5) ∧
    ((cpu_write zeroCPU (0x2000 + 0x1FFD) 0x5A).1 = true ∧
      cpu_read emptyRom (cpu_write zeroCPU (0x2000 + 0x1FFD) 0x5A).2 (0x2000 + 5) 0
        = (true, 0x5A)) ∧
    ((cpu_write zeroCPU (0x2000 + 5) 0x5A).1 = true ∧
      cpu_read emptyRom (cpu_write zeroCPU (0x2000 + 5) 0x5A).2 (0x2000 + 0x1FFD) 0
        = (true, 0x5A)) :=
  ⟨by decide,
   register_window_mirroring emptyRom zeroCPU 0x1FFD 5 0x5A 0 (by decide) (by decide)
     (by decide)⟩

theorem flagSet_two_pow (s k : Nat) : flagSet s (2 ^ k) = s.testBit k := by
  unfold flagSet
  rw [Nat.and_two_pow]
  cases h : s.testBit k
  · simp
  · simp

theorem flagSet_after_or (s k : Nat) (hk : k < 8) :
    flagSet ((s ||| 2 ^ k) % 256) (2 ^ k) = true := by
  rw [flagSet_two_pow]
  have h256 : (256 : Nat) = 2 ^ 8 := by norm_num
  rw [h256, Nat.testBit_mod_two_pow, Nat.testBit_or, Nat.testBit_two_pow_self]
  simp [hk]

theorem shift_or_eq (hi lo : Nat) (hlo : lo < 256) : (hi <<< 8) ||| lo = hi * 256 + lo := by
  have h := Nat.mul_add_lt_is_or (i := 8) (b := lo) (by simpa using hlo) hi
  rw [Nat.shiftLeft_eq]
  have h256 : (2 : Nat) ^ 8 = 256 := by norm_num
  rw [h256] at h ⊢
  rw [Nat.mul_comm hi 256, ← h]

/-- C3. Reset sequencing: when the bus reads at `0xFFFC` and `0xFFFD` succeed with
bytes `lo` and `hi`, `cpu_reset` leaves `PC == hi*256 + lo`, `cycles == 0`,
`A == X == Y == 0` and `Status == 0x20`, whatever the state before the reset. -/
theorem reset_sequencing (R : Rom) (X : Externs) (lo0 : Nat) (m : Machine) (lo hi : Nat)
    (hlo : cpu_read R m.cpu 0xFFFC lo0 = (true, lo))
    (hhi : cpu_read R m.cpu 0xFFFD 0 = (true, hi))
    (hlo8 : lo < 256) (hhi8 : hi < 256) :
    (cpu_reset R X lo0 m).cpu.pc = hi * 256 + lo ∧
    (cpu_reset R X lo0 m).cpu.cycles = 0 ∧
    (cpu_reset R X lo0 m).cpu.a = 0 ∧
    (cpu_reset R X lo0 m).cpu.x = 0 ∧
    (cpu_reset R X lo0 m).cpu.y = 0 ∧
    (cpu_reset R X lo0 m).cpu.status = 0x20 := by
  have hpc : ((hi <<< 8) ||| lo) % 65536 = hi * 256 + lo := by
    rw [shift_or_eq hi lo hlo8]
    omega
  simp only [cpu_reset, hlo, hhi, if_true, hpc]
  simp [always_on_flag]

/-- Instance of C3: vector bytes `lo = 0x34`, `hi = 0x12` give `PC == 0x1234`,
from a state whose registers are all non-zero. -/
theorem reset_sequencing_witness :
    (cpu_read vectorRom zeroCPU 0xFFFC 0xEE = (true, 0x34) ∧
      cpu_read vectorRom zeroCPU 0xFFFD 0 = (true, 0x12) ∧ 0x34 < 256 ∧ 0x12 < 256) ∧
    ((cpu_reset vectorRom idExterns 0xEE
        ⟨{ zeroCPU with a := 1, x := 2, y := 3, pc := 0x4444, status := 0xFF, cycles := 7 },
          []⟩).cpu.pc = 0x1234 ∧
     (cpu_reset vectorRom idExterns 0xEE
        ⟨{ zeroCPU with a := 1, x := 2, y := 3, pc := 0x4444, status := 0xFF, cycles := 7 },
          []⟩).cpu.status = 0x20) :=
  ⟨by decide,
   (reset_sequencing vectorRom idExterns 0xEE
      ⟨{ zeroCPU with a := 1, x := 2, y := 3, pc := 0x4444, status := 0xFF, cycles := 7 }, []⟩
      0x34 0x12 (by decide) (by decide) (by decide) (by decide)).1,
   (reset_sequencing vectorRom idExterns 0xEE
      ⟨{ zeroCPU with a := 1, x := 2, y := 3, pc := 0x4444, status := 0xFF, cycles := 7 }, []⟩
      0x34 0x12 (by decide) (by decide) (by decide) (by decide)).2.2.2.2.2⟩

/-- C4. What the code does where the claim fails: `SET_ZERO_FLAG` with a non-zero
value stores nothing, so `Status` is unchanged for every state; with `Status = 0x22`
(Zero set) and value `0x01` the Zero bit is still set afterwards. -/
theorem zero_flag_not_cleared (c : CPU) (X : Nat) :
    (SET_ZERO_FLAG c (X + 1)).status = c.status ∧
    flagSet (SET_ZERO_FLAG { zeroCPU with status := 0x22 } 0x01).status zero = true := by
  refine ⟨?_, by decide⟩
  simp [SET_ZERO_FLAG]

/-- C5. What the code does where the claim fails: with `Status = 0x21` (Carry set),
`SET_CARRY_FLAG(0x7F, 0x01, 0)` has sum `0x80`, not above `0xFF`, yet the Carry bit
is still set afterwards and `Status` is unchanged; `SET_CARRY_FLAG(0xFF, 0x01, 0)`
sets Carry from a clear bit. -/
theorem carry_flag_not_cleared :
    0x7F + 0x01 + 0 ≤ 0xFF ∧
    flagSet (SET_CARRY_FLAG { zeroCPU with status := 0x21 } 0x7F 0x01 0).status carry = true ∧
    (SET_CARRY_FLAG { zeroCPU with status := 0x21 } 0x7F 0x01 0).status = 0x21 ∧
    flagSet (SET_CARRY_FLAG { zeroCPU with status := 0x20 } 0xFF 0x01 0).status carry = true := by
  decide

/-- C6, counterexample. With the Overflow bit clear (`Status = 0x20`),
`SET_OVERFLOW_FLAG(0xFF, 0x01, 0)` sets Overflow although `0xFF` and `0x01` have
different sign bits, so Overflow is not set exactly on signed overflow. -/
theorem overflow_not_signed_counterexample :
    ¬ (flagSet (SET_OVERFLOW_FLAG { zeroCPU with status := 0x20 } 0xFF 0x01 0).status overflow
        = true ↔ specSignedOverflow 0xFF 0x01 0 = true) := by
  decide

/-- C6, amended. For a `Status` whose Overflow bit is clear, 8-bit `value` and
`operand` and `c` in {0,1}: after `SET_OVERFLOW_FLAG(value, operand, c)` the
Overflow bit is set iff `(value <= 0x7F and sum > 0x7F) or (value > 0x7F and
sum > 0xFF)` with `sum = value + operand + c`; when `value` and `operand` are both
at most `0x7F` this is signed overflow. -/
theorem overflow_flag_set_condition (c : CPU) (value operand cin : Nat)
    (hclear : flagSet c.status overflow = false)
    (hv : value < 256) (ho : operand < 256) (hc : cin ≤ 1) :
    (flagSet (SET_OVERFLOW_FLAG c value operand cin).status overflow = true ↔
      ((value ≤ 0x7F ∧ value + operand + cin > 0x7F) ∨
       (value > 0x7F ∧ value + operand + cin > 0xFF))) ∧
    (value ≤ 0x7F → operand ≤ 0x7F →
      (flagSet (SET_OVERFLOW_FLAG c value operand cin).status overflow = true ↔
        specSignedOverflow value operand cin = true)) := by
  have hov : overflow = 2 ^ 6 := by decide
  have hmv : value % 65536 = value := Nat.mod_eq_of_lt (by omega)
  have hmo : operand % 65536 = operand := Nat.mod_eq_of_lt (by omega)
  have key : flagSet (SET_OVERFLOW_FLAG c value operand cin).status overflow = true ↔
      ((value ≤ 0x7F ∧ value + operand + cin > 0x7F) ∨
       (value > 0x7F ∧ value + operand + cin > 0xFF)) := by
    unfold SET_OVERFLOW_FLAG
    rw [hmv, hmo]
    split
    · rename_i h
      simp only [hov, flagSet_after_or _ 6 (by decide), true_iff]
      exact h
    · rename_i h
      simp only [hclear, Bool.false_eq_true, false_iff]
      exact h
  refine ⟨key, fun h1 h2 => ?_⟩
  rw [key]
  unfold specSignedOverflow
  have hs : (value + operand + cin) % 256 = value + operand + cin :=
    Nat.mod_eq_of_lt (by omega)
  rw [hs]
  have hv7 : ¬ value > 0x7F := by omega
  have ho7 : ¬ operand > 0x7F := by omega
  simp [hv7, ho7]
  omega

/-- Instance of C6 amended: `0x7F + 0x01 + 0` from `Status = 0x20` sets Overflow,
and it is a signed overflow. -/
theorem overflow_flag_set_condition_witness :
    (flagSet (0x20 : Nat) overflow = false ∧ 0x7F < 256 ∧ 0x01 < 256 ∧ 0 ≤ 1) ∧
    (flagSet (SET_OVERFLOW_FLAG { zeroCPU with status := 0x20 } 0x7F 0x01 0).status overflow
        = true ↔
      ((0x7F ≤ 0x7F ∧ 0x7F + 0x01 + 0 > 0x7F) ∨ (0x7F > 0x7F ∧ 0x7F + 0x01 + 0 > 0xFF))) :=
  ⟨by decide,
   (overflow_flag_set_condition { zeroCPU with status := 0x20 } 0x7F 0x01 0
      (by decide) (by decide) (by decide) (by decide)).1⟩

theorem cpu_read_data_of_fail (R : Rom) (c : CPU) (addr d : Nat)
    (h : (cpu_read R c addr d).1 = false) : (cpu_read R c addr d).2 = d := by
  unfold cpu_read at h ⊢
  cases hd : decode addr <;> simp only [hd] at h ⊢ <;> try (first | rfl | cases h)
  cases hm : R.readCPUMapper addr <;> simp only [hm] at h ⊢
  cases h

/-- The opcode fetch of `cpu_clock` when the bus read succeeds with byte `op`. -/
theorem fetch_opcode_ok (R : Rom) (X : Externs) (m : Machine) (op : Nat)
    (hread : cpu_read R m.cpu m.cpu.pc m.cpu.opcode = (true, op))
    (hpc : m.cpu.pc < 65536) :
    READ_BYTE_PC R X opcodeSlot m =
      ⟨{ m.cpu with opcode := op, pc := (m.cpu.pc + 1) % 65536 }, m.calls⟩ := by
  simp only [READ_BYTE_PC, READ_BYTE, READ_BYTE_FROM_ADDR, opcodeSlot, Nat.mod_eq_of_lt hpc,
    hread, if_true]

/-- The opcode fetch of `cpu_clock` when the bus read fails. -/
theorem fetch_opcode_fail (R : Rom) (X : Externs) (m : Machine)
    (hread : (cpu_read R m.cpu m.cpu.pc m.cpu.opcode).1 = false)
    (hpc : m.cpu.pc < 65536) :
    READ_BYTE_PC R X opcodeSlot m =
      ⟨{ X.fail m.cpu with pc := ((X.fail m.cpu).pc + 1) % 65536 },
        m.calls ++ [Call.fail]⟩ := by
  have hd := cpu_read_data_of_fail R m.cpu m.cpu.pc m.cpu.opcode hread
  simp only [READ_BYTE_PC, READ_BYTE, READ_BYTE_FROM_ADDR, opcodeSlot, Nat.mod_eq_of_lt hpc,
    hread, hd, call, Externs.run]
  rfl

/-- C7. Fetch and classify: when the bus read at `PC` succeeds with byte `op`,
`cpu_clock` stores `op` in `opcode`, sets `PC` to `(PC + 1) mod 2^16`, zeroes `low`
and `high`, and then invokes exactly one of `handleControl` (`op mod 4 == 0`),
`handleALU` (1), `handleRMW` (2), the fatal-failure callback (3) on that state,
followed only by `log_state`. -/
theorem fetch_and_classify (R : Rom) (X : Externs) (m : Machine) (op : Nat)
    (hread : cpu_read R m.cpu m.cpu.pc m.cpu.opcode = (true, op))
    (hpc : m.cpu.pc < 65536) :
    (op % 4 = 0 → cpu_clock R X m =
      ⟨X.log_state (X.handleControl
          { m.cpu with opcode := op, pc := (m.cpu.pc + 1) % 65536, high := 0, low := 0 }),
        m.calls ++ [Call.handleControl, Call.log_state]⟩) ∧
    (op % 4 = 1 → cpu_clock R X m =
      ⟨X.log_state (X.handleALU
          { m.cpu with opcode := op, pc := (m.cpu.pc + 1) % 65536, high := 0, low := 0 }),
        m.calls ++ [Call.handleALU, Call.log_state]⟩) ∧
    (op % 4 = 2 → cpu_clock R X m =
      ⟨X.log_state (X.handleRMW
          { m.cpu with opcode := op, pc := (m.cpu.pc + 1) % 65536, high := 0, low := 0 }),
        m.calls ++ [Call.handleRMW, Call.log_state]⟩) ∧
    (op % 4 = 3 → cpu_clock R X m =
      ⟨X.log_state (X.fail
          { m.cpu with opcode := op, pc := (m.cpu.pc + 1) % 65536, high := 0, low := 0 }),
        m.calls ++ [Call.fail, Call.log_state]⟩) := by
  have hf := fetch_opcode_ok R X m op hread hpc
  refine ⟨fun h => ?_, fun h => ?_, fun h => ?_, fun h => ?_⟩ <;>
    simp [cpu_clock, hf, h, call, Externs.run]

/-- Instance of C7: opcode byte `0x05` in RAM at `PC = 0x0010` goes to `handleALU`. -/
theorem fetch_and_classify_witness :
    (cpu_read emptyRom { zeroCPU with pc := 0x0010, memory := fun _ => 0x05 } 0x0010 0
        = (true, 0x05) ∧ 0x0010 < 65536 ∧ 0x05 % 4 = 1) ∧
    cpu_clock emptyRom idExterns
        ⟨{ zeroCPU with pc := 0x0010, memory := fun _ => 0x05 }, []⟩ =
      ⟨idExterns.log_state (idExterns.handleALU
          { ({ zeroCPU with pc := 0x0010, memory := fun _ => 0x05 } : CPU) with
            opcode := 0x05, pc := (0x0010 + 1) % 65536, high := 0, low := 0 }),
        [] ++ [Call.handleALU, Call.log_state]⟩ :=
  ⟨by decide,
   (fetch_and_classify emptyRom idExterns
      ⟨{ zeroCPU with pc := 0x0010, memory := fun _ => 0x05 }, []⟩ 0x05
      (by decide) (by decide)).2.1 (by decide)⟩

/-- C8, counterexample. With the byte `0x03` fetched at `PC = 0` and callbacks that
return without touching the state, `PC` after `cpu_clock` is 1, not its value
before the step. -/
theorem illegal_opcode_pc_counterexample :
    cpu_read emptyRom { zeroCPU with memory := fun _ => 0x03 } 0 0 = (true, 0x03) ∧
    0x03 % 4 = 3 ∧
    (cpu_clock emptyRom idExterns ⟨{ zeroCPU with memory := fun _ => 0x03 }, []⟩).cpu.pc
      ≠ ({ zeroCPU with memory := fun _ => 0x03 } : CPU).pc := by
  decide

/-- C8, amended. When the byte `op` fetched at `PC` has `op mod 4 == 3` (and the
callback and `log_state` return without touching the state), `cpu_clock` invokes
the fatal-failure callback exactly once and no group handler, leaves `A`, `X`,
`Y`, `SP` and `Status` as they were, and `PC` has been advanced by the fetch to
`(PC + 1) mod 2^16`. -/
theorem illegal_opcode_halts (R : Rom) (X : Externs) (m : Machine) (op : Nat)
    (hread : cpu_read R m.cpu m.cpu.pc m.cpu.opcode = (true, op))
    (hpc : m.cpu.pc < 65536) (hill : op % 4 = 3)
    (hfail : ∀ c, X.fail c = c) (hlog : ∀ c, X.log_state c = c) :
    (cpu_clock R X m).calls = m.calls ++ [Call.fail, Call.log_state] ∧
    (cpu_clock R X m).cpu.a = m.cpu.a ∧
    (cpu_clock R X m).cpu.x = m.cpu.x ∧
    (cpu_clock R X m).cpu.y = m.cpu.y ∧
    (cpu_clock R X m).cpu.sp = m.cpu.sp ∧
    (cpu_clock R X m).cpu.status = m.cpu.status ∧
    (cpu_clock R X m).cpu.pc = (m.cpu.pc + 1) % 65536 := by
  have hf := fetch_opcode_ok R X m op hread hpc
  simp [cpu_clock, hf, hill, call, Externs.run, hfail, hlog]

/-- Instance of C8 amended: byte `0x03` at `PC = 0`. -/
theorem illegal_opcode_halts_witness :
    (cpu_read emptyRom { zeroCPU with memory := fun _ => 0x03 } 0 0 = (true, 0x03) ∧
      (0 : Nat) < 65536 ∧ 0x03 % 4 = 3 ∧
      (∀ c, idExterns.fail c = c) ∧ (∀ c, idExterns.log_state c = c)) ∧
    (cpu_clock emptyRom idExterns ⟨{ zeroCPU with memory := fun _ => 0x03 }, []⟩).calls
      = [] ++ [Call.fail, Call.log_state] :=
  ⟨⟨by decide, by decide, by decide, fun _ => rfl, fun _ => rfl⟩,
   (illegal_opcode_halts emptyRom idExterns ⟨{ zeroCPU with memory := fun _ => 0x03 }, []⟩
      0x03 (by decide) (by decide) (by decide) (fun _ => rfl) (fun _ => rfl)).1⟩

/-- C9. Address decoding is total and reads fail only on mapper failure: every
16-bit address selects exactly one of the five region branches, never the final
`else`; `cpu_read` returns false iff the address is at or above `0x4020` and
`readCPUMapper` fails; when the mapper succeeds with offset `mapped` the byte read
is `PRG_ROM_data[mapped]`. -/
theorem decoding_total (R : Rom) (c : CPU) (addr d : Nat) (h16 : addr < 65536) :
    decode addr ≠ Region.unmapped ∧
    (decode addr = Region.ram ↔ addr ≤ 0x1FFF) ∧
    (decode addr = Region.ppu ↔ 0x2000 ≤ addr ∧ addr ≤ 0x3FFF) ∧
    (decode addr = Region.apu_io ↔ 0x4000 ≤ addr ∧ addr ≤ 0x4017) ∧
    (decode addr = Region.test_mode ↔ 0x4018 ≤ addr ∧ addr ≤ 0x401F) ∧
    (decode addr = Region.cartridge ↔ 0x4020 ≤ addr ∧ addr ≤ 0xFFFF) ∧
    ((cpu_read R c addr d).1 = false ↔ 0x4020 ≤ addr ∧ R.readCPUMapper addr = none) ∧
    (∀ mapped, 0x4020 ≤ addr → R.readCPUMapper addr = some mapped →
      cpu_read R c addr d = (true, R.PRG_ROM_data mapped)) := by
  have hcases : addr ≤ 0x1FFF ∨ (0x2000 ≤ addr ∧ addr ≤ 0x3FFF) ∨
      (0x4000 ≤ addr ∧ addr ≤ 0x4017) ∨ (0x4018 ≤ addr ∧ addr ≤ 0x401F) ∨
      (0x4020 ≤ addr ∧ addr ≤ 0xFFFF) := by omega
  rcases hcases with h | h | h | h | h
  · have hd := decode_ram h
    simp only [cpu_read, hd]
    refine ⟨by simp, by simp [h], ?_, ?_, ?_, ?_, ?_, ?_⟩ <;> simp <;> omega
  · have hd := decode_ppu h.1 h.2
    simp only [cpu_read, hd]
    refine ⟨by simp, ?_, by simp [h], ?_, ?_, ?_, ?_, ?_⟩ <;> simp <;> omega
  · have hd := decode_apu_io h.1 h.2
    simp only [cpu_read, hd]
    refine ⟨by simp, ?_, ?_, by simp [h], ?_, ?_, ?_, ?_⟩ <;> simp <;> omega
  · have hd := decode_test_mode h.1 h.2
    simp only [cpu_read, hd]
    refine ⟨by simp, ?_, ?_, ?_, by simp [h], ?_, ?_, ?_⟩ <;> simp <;> omega
  · have hd := decode_cartridge h.1 h.2
    simp only [cpu_read, hd]
    refine ⟨by simp, ?_, ?_, ?_, ?_, by simp [h], ?_, ?_⟩
    · simp; omega
    · simp; omega
    · simp; omega
    · simp; omega
    · cases hm : R.readCPUMapper addr <;> simp [h.1]
    · intro mapped _ hm
      simp [hm]

/-- Instance of C9: address `0xFFFC` with a mapper that accepts it. -/
theorem decoding_total_witness :
    (0xFFFC : Nat) < 65536 ∧
    decode 0xFFFC ≠ Region.unmapped ∧
    ((cpu_read vectorRom zeroCPU 0xFFFC 0).1 = false ↔
      0x4020 ≤ 0xFFFC ∧ vectorRom.readCPUMapper 0xFFFC = none) :=
  ⟨by decide,
   (decoding_total vectorRom zeroCPU 0xFFFC 0 (by decide)).1,
   (decoding_total vectorRom zeroCPU 0xFFFC 0 (by decide)).2.2.2.2.2.2.1⟩

/-- C10, counterexample. With `PC = 0x8000`, a mapper that rejects every address
and callbacks that return without touching the state, the opcode read fails, yet
after `cpu_clock` the `PC` is `0x8001` and `handleControl` has been invoked (the
stale opcode is `0x00`). -/
theorem fetch_failure_counterexample :
    (cpu_read emptyRom { zeroCPU with pc := 0x8000 } 0x8000 0).1 = false ∧
    (cpu_clock emptyRom idExterns ⟨{ zeroCPU with pc := 0x8000 }, []⟩).cpu.pc
      ≠ ({ zeroCPU with pc := 0x8000 } : CPU).pc ∧
    (cpu_clock emptyRom idExterns ⟨{ zeroCPU with pc := 0x8000 }, []⟩).calls
      = [Call.fail, Call.handleControl, Call.log_state] := by
  decide

/-- C10, amended. When the bus read of the opcode at `PC` fails, `cpu_clock`
invokes the fatal-failure callback first and `opcode` keeps its previous value.
Nothing in the code stops the step after the callback: with the callback
returning and leaving the state alone, `PC` is advanced to `(PC + 1) mod 2^16`,
`low` and `high` are zeroed, the continuation selected by the previous opcode
mod 4 is invoked (for 3, the callback a second time), and then `log_state`. -/
theorem fetch_failure_continues (R : Rom) (X : Externs) (m : Machine)
    (hread : (cpu_read R m.cpu m.cpu.pc m.cpu.opcode).1 = false)
    (hpc : m.cpu.pc < 65536) (hfail : ∀ c, X.fail c = c) :
    (m.cpu.opcode % 4 = 0 → cpu_clock R X m =
      ⟨X.log_state (X.handleControl
          { m.cpu with pc := (m.cpu.pc + 1) % 65536, high := 0, low := 0 }),
        m.calls ++ [Call.fail, Call.handleControl, Call.log_state]⟩) ∧
    (m.cpu.opcode % 4 = 1 → cpu_clock R X m =
      ⟨X.log_state (X.handleALU
          { m.cpu with pc := (m.cpu.pc + 1) % 65536, high := 0, low := 0 }),
        m.calls ++ [Call.fail, Call.handleALU, Call.log_state]⟩) ∧
    (m.cpu.opcode % 4 = 2 → cpu_clock R X m =
      ⟨X.log_state (X.handleRMW
          { m.cpu with pc := (m.cpu.pc + 1) % 65536, high := 0, low := 0 }),
        m.calls ++ [Call.fail, Call.handleRMW, Call.log_state]⟩) ∧
    (m.cpu.opcode % 4 = 3 → cpu_clock R X m =
      ⟨X.log_state { m.cpu with pc := (m.cpu.pc + 1) % 65536, high := 0, low := 0 },
        m.calls ++ [Call.fail, Call.fail, Call.log_state]⟩) := by
  have hf := fetch_opcode_fail R X m hread hpc
  refine ⟨fun h => ?_, fun h => ?_, fun h => ?_, fun h => ?_⟩ <;>
    simp [cpu_clock, hf, h, call, Externs.run, hfail]

/-- Instance of C10 amended: `PC = 0x8000`, previous opcode `0x02`, mapper rejecting
the address. -/
theorem fetch_failure_continues_witness :
    ((cpu_read emptyRom { zeroCPU with pc := 0x8000, opcode := 0x02 } 0x8000 0x02).1 = false ∧
      (0x8000 : Nat) < 65536 ∧ (∀ c, idExterns.fail c = c) ∧ 0x02 % 4 = 2) ∧
    cpu_clock emptyRom idExterns ⟨{ zeroCPU with pc := 0x8000, opcode := 0x02 }, []⟩ =
      ⟨idExterns.log_state (idExterns.handleRMW
          { ({ zeroCPU with pc := 0x8000, opcode := 0x02 } : CPU) with
            pc := (0x8000 + 1) % 65536, high := 0, low := 0 }),
        [] ++ [Call.fail, Call.handleRMW, Call.log_state]⟩ :=
  ⟨⟨by decide, by decide, fun _ => rfl, by decide⟩,
   (fetch_failure_continues emptyRom idExterns
      ⟨{ zeroCPU with pc := 0x8000, opcode := 0x02 }, []⟩
      (by decide) (by decide) (fun _ => rfl)).2.2.1 (by decide)⟩

/-- C11, counterexample. With a mapper that rejects every address the read at
`0xFFFC` fails, yet after `cpu_reset` (callback returning without touching the
state) `A` is 0, not its previous value 1, and `PC` is not its previous value. -/
theorem reset_failure_counterexample :
    (cpu_read emptyRom busyCPU 0xFFFC 0xEE).1 = false ∧
    (cpu_reset emptyRom idExterns 0xEE ⟨busyCPU, []⟩).calls = [Call.fail] ∧
    (cpu_reset emptyRom idExterns 0xEE ⟨busyCPU, []⟩).cpu.a ≠ busyCPU.a ∧
    (cpu_reset emptyRom idExterns 0xEE ⟨busyCPU, []⟩).cpu.pc ≠ busyCPU.pc := by
  decide

/-- C11, amended. When the bus read at `0xFFFC` or at `0xFFFD` fails, `cpu_reset`
invokes the fatal-failure callback exactly once.  Nothing in the code returns
after the callback, so the initialisation is still carried out: `cycles`, `A`,
`X`, `Y` are zeroed, `Status` is `0x20`, and when the read at `0xFFFC` succeeded
with byte `lo` (so the read at `0xFFFD` failed and `hi` kept its initial 0) `PC`
is `lo`. -/
theorem reset_failure_continues (R : Rom) (X : Externs) (lo0 : Nat) (m : Machine)
    (hread : (cpu_read R m.cpu 0xFFFC lo0).1 = false ∨
      (cpu_read R m.cpu 0xFFFD 0).1 = false) :
    (cpu_reset R X lo0 m).calls = m.calls ++ [Call.fail] ∧
    (cpu_reset R X lo0 m).cpu.cycles = 0 ∧
    (cpu_reset R X lo0 m).cpu.a = 0 ∧
    (cpu_reset R X lo0 m).cpu.x = 0 ∧
    (cpu_reset R X lo0 m).cpu.y = 0 ∧
    (cpu_reset R X lo0 m).cpu.status = 0x20 ∧
    (∀ lo, cpu_read R m.cpu 0xFFFC lo0 = (true, lo) → lo < 256 →
      (cpu_reset R X lo0 m).cpu.pc = lo) := by
  have hcond : (!(cpu_read R m.cpu 0xFFFC lo0).1 || !(cpu_read R m.cpu 0xFFFD 0).1) = true := by
    rcases hread with h | h <;> simp [h]
  refine ⟨?_, ?_, ?_, ?_, ?_, ?_, ?_⟩
  · simp only [cpu_reset, hcond, if_true, call]
  · simp only [cpu_reset]
  · simp only [cpu_reset]
  · simp only [cpu_reset]
  · simp only [cpu_reset]
  · simp [cpu_reset, always_on_flag]
  · intro lo hlo hlo8
    have h2 : (cpu_read R m.cpu 0xFFFD 0).1 = false := by
      rcases hread with h | h
      · rw [hlo] at h
        cases h
      · exact h
    have hhi := cpu_read_data_of_fail R m.cpu 0xFFFD 0 h2
    have hpc : ((0 <<< 8) ||| lo) % 65536 = lo := by
      rw [shift_or_eq 0 lo hlo8]
      omega
    simp only [cpu_reset, hlo, hhi, if_true, hpc]

/-- Instance of C11 amended: mapper rejecting every address, registers all
non-zero before the reset. -/
theorem reset_failure_continues_witness :
    ((cpu_read emptyRom busyCPU 0xFFFC 0xEE).1 = false ∨
      (cpu_read emptyRom busyCPU 0xFFFD 0).1 = false) ∧
    (cpu_reset emptyRom idExterns 0xEE ⟨busyCPU, []⟩).calls = [] ++ [Call.fail] ∧
    (cpu_reset emptyRom idExterns 0xEE ⟨busyCPU, []⟩).cpu.status = 0x20 :=
  ⟨Or.inl (by decide),
   (reset_failure_continues emptyRom idExterns 0xEE ⟨busyCPU, []⟩ (Or.inl (by decide))).1,
   (reset_failure_continues emptyRom idExterns 0xEE ⟨busyCPU, []⟩
      (Or.inl (by decide))).2.2.2.2.2.1⟩

/-- C12. What the code does where the claim fails: for base `0x20FF` and index
`0x01` the address is `0x2100`, the high byte changes from `0x20` to `0x21`, and
`CHECK_PAGE_BOUNDARY(0x2100, 0x01)` is true, the same value as for base `0x2000`
(address `0x2001`, no crossing); for base `0x01FD` and index `0x02` (address
`0x01FF`, no crossing) it is false. -/
theorem page_boundary_wrong_modulus :
    (0x20FF + 0x01) % 65536 = 0x2100 ∧ 0x2100 / 256 ≠ 0x20FF / 256 ∧
    CHECK_PAGE_BOUNDARY 0x2100 0x01 = true ∧
    CHECK_PAGE_BOUNDARY 0x2001 0x01 = true ∧
    (0x01FD + 0x02) % 65536 = 0x01FF ∧ 0x01FF / 256 = 0x01FD / 256 ∧
    CHECK_PAGE_BOUNDARY 0x01FF 0x02 = false := by
  decide

/-- C13. What the code does where the claim fails: with `PC = 0` and the bytes
`0x34`, `0x12` at addresses 0 and 1, `READ_WORD_PC()` reads address 0 twice and
does not move `PC`: `low == 0x34`, `high == 0x34`, `PC == 0`, no callback, and a
following `SET_ADDR(addr, 0)` gives `0x3434`, not `0x1234`. -/
theorem read_word_pc_same_byte :
    cpu_read emptyRom wordCPU 0 0 = (true, 0x34) ∧
    cpu_read emptyRom wordCPU 1 0 = (true, 0x12) ∧
    (READ_WORD_PC emptyRom idExterns ⟨wordCPU, []⟩).cpu.low = 0x34 ∧
    (READ_WORD_PC emptyRom idExterns ⟨wordCPU, []⟩).cpu.high = 0x34 ∧
    (READ_WORD_PC emptyRom idExterns ⟨wordCPU, []⟩).cpu.pc = 0 ∧
    (READ_WORD_PC emptyRom idExterns ⟨wordCPU, []⟩).calls = [] ∧
    SET_ADDR (READ_WORD_PC emptyRom idExterns ⟨wordCPU, []⟩).cpu 0 = 0x3434 := by
  decide

/-- C14. What the code does where the claim fails: after `cpu_reset` the stack
pointer is `(uint8_t) 0x100`, which is `0x00`, for every state, cartridge and
callback. -/
theorem reset_sp_truncated (R : Rom) (X : Externs) (lo0 : Nat) (m : Machine) :
    (cpu_reset R X lo0 m).cpu.sp = 0x00 := by
  simp only [cpu_reset]

/-- C15, counterexample. The cartridge `vectorRom` translates address `0x8000`
(to offset 0), yet `cpu_write(0x8000, 0xAB)` returns false. -/
theorem cartridge_write_counterexample :
    vectorRom.readCPUMapper 0x8000 = some 0 ∧
    (cpu_write zeroCPU 0x8000 0xAB).1 = false := by
  decide

/-- C15, amended. For every address in `0x4020..0xFFFF` and every byte,
`cpu_write` returns false and leaves the state as it is; no mapper is consulted,
so no cartridge-space write is ever accepted. -/
theorem cartridge_write_rejected (c : CPU) (addr b : Nat)
    (h1 : 0x4020 ≤ addr) (h2 : addr ≤ 0xFFFF) :
    cpu_write c addr b = (false, c) := by
  simp only [cpu_write, decode_cartridge h1 h2]

/-- Instance of C15 amended: address `0xFFFC`. -/
theorem cartridge_write_rejected_witness :
    (0x4020 ≤ 0xFFFC ∧ 0xFFFC ≤ 0xFFFF) ∧ cpu_write zeroCPU 0xFFFC 0xAB = (false, zeroCPU) :=
  ⟨by decide, cartridge_write_rejected zeroCPU 0xFFFC 0xAB (by decide) (by decide)⟩

theorem flagSet_or_mod_of_flagSet (s f k : Nat) (hk : k < 8)
    (h : flagSet s (2 ^ k) = true) : flagSet ((s ||| f) % 256) (2 ^ k) = true := by
  rw [flagSet_two_pow] at h ⊢
  have h256 : (256 : Nat) = 2 ^ 8 := by norm_num
  rw [h256, Nat.testBit_mod_two_pow, Nat.testBit_or, h]
  simp [hk]

theorem always_on_flag_eq : always_on_flag = 2 ^ 5 := by decide

theorem cpu_write_status (c : CPU) (addr b : Nat) :
    (cpu_write c addr b).2.status = c.status := by
  unfold cpu_write
  cases decode addr <;> rfl

/-- Every operation keeps bit 5 of `Status` set, provided the callback does. -/
theorem step_keeps_always_on (R : Rom) (X : Externs)
    (hfail : ∀ c, flagSet c.status always_on_flag = true →
      flagSet (X.fail c).status always_on_flag = true)
    (op : Op) (m : Machine) (h : flagSet m.cpu.status always_on_flag = true) :
    flagSet (step R X op m).cpu.status always_on_flag = true := by
  have h5 : flagSet m.cpu.status (2 ^ 5) = true := by rw [← always_on_flag_eq]; exact h
  cases op with
  | setZero v =>
    simp only [step, SET_ZERO_FLAG]
    split
    · rw [always_on_flag_eq]; exact flagSet_or_mod_of_flagSet _ _ 5 (by decide) h5
    · exact h
  | setNeg v =>
    simp only [step, SET_NEG_FLAG]
    split
    · rw [always_on_flag_eq]; exact flagSet_or_mod_of_flagSet _ _ 5 (by decide) h5
    · exact h
  | setOverflow v b c =>
    simp only [step, SET_OVERFLOW_FLAG]
    split
    · rw [always_on_flag_eq]; exact flagSet_or_mod_of_flagSet _ _ 5 (by decide) h5
    · exact h
  | setCarry v b c =>
    simp only [step, SET_CARRY_FLAG]
    split
    · rw [always_on_flag_eq]; exact flagSet_or_mod_of_flagSet _ _ 5 (by decide) h5
    · exact h
  | read addr d => exact h
  | write addr b =>
    simp only [step, cpu_write_status]
    exact h
  | fetch =>
    simp only [step, READ_BYTE_PC, READ_BYTE, READ_BYTE_FROM_ADDR, opcodeSlot]
    split
    · exact h
    · simp only [call, Externs.run]
      exact hfail _ h

theorem run_keeps_always_on (R : Rom) (X : Externs)
    (hfail : ∀ c, flagSet c.status always_on_flag = true →
      flagSet (X.fail c).status always_on_flag = true)
    (ops : List Op) (m : Machine) (h : flagSet m.cpu.status always_on_flag = true) :
    flagSet (run R X ops m).cpu.status always_on_flag = true := by
  induction ops generalizing m with
  | nil => exact h
  | cons op rest ih =>
    simp only [run, List.foldl_cons]
    exact ih (step R X op m) (step_keeps_always_on R X hfail op m h)

theorem reset_sets_always_on (R : Rom) (X : Externs) (lo0 : Nat) (m : Machine) :
    flagSet (cpu_reset R X lo0 m).cpu.status always_on_flag = true := by
  have hs : (cpu_reset R X lo0 m).cpu.status = 0x20 := by
    simp [cpu_reset, always_on_flag]
  rw [hs]
  decide

/-- C16. Status bit 5 invariant: bit 5 (`always_on_flag`) is set after `cpu_reset`;
each of `SET_ZERO_FLAG`, `SET_NEG_FLAG`, `SET_OVERFLOW_FLAG`, `SET_CARRY_FLAG` (for
all arguments), `cpu_read`, `cpu_write` and the opcode fetch of `cpu_clock` keeps it
set; hence it is set after every sequence of these operations run from a reset.
The fatal-failure callback, which the fetch calls on a failed read, is external
and is assumed to keep the bit. -/
theorem always_on_invariant (R : Rom) (X : Externs) (lo0 : Nat) (m : Machine)
    (hfail : ∀ c, flagSet c.status always_on_flag = true →
      flagSet (X.fail c).status always_on_flag = true) :
    flagSet (cpu_reset R X lo0 m).cpu.status always_on_flag = true ∧
    (∀ op m1, flagSet m1.cpu.status always_on_flag = true →
      flagSet (step R X op m1).cpu.status always_on_flag = true) ∧
    (∀ ops, flagSet (run R X ops (cpu_reset R X lo0 m)).cpu.status always_on_flag = true) :=
  ⟨reset_sets_always_on R X lo0 m,
   fun op m1 h => step_keeps_always_on R X hfail op m1 h,
   fun ops => run_keeps_always_on R X hfail ops _ (reset_sets_always_on R X lo0 m)⟩

/-- Instance of C16: a reset followed by a fetch, a flag update and a write. -/
theorem always_on_invariant_witness :
    (∀ c, flagSet c.status always_on_flag = true →
      flagSet (idExterns.fail c).status always_on_flag = true) ∧
    flagSet (run vectorRom idExterns [Op.fetch, Op.setZero 0, Op.write 0x0000 0xFF]
      (cpu_reset vectorRom idExterns 0 ⟨busyCPU, []⟩)).cpu.status always_on_flag = true :=
  ⟨fun _ h => h,
   (always_on_invariant vectorRom idExterns 0 ⟨busyCPU, []⟩ (fun _ h => h)).2.2
     [Op.fetch, Op.setZero 0, Op.write 0x0000 0xFF]⟩

/-- C17. Test-mode range is a no-op: for `addr` in `0x4018..0x401F`, `cpu_write`
returns true and leaves the whole state as it is; `cpu_read` returns true and
leaves the caller's data byte as it was, also right after a write to the same
address, so the written byte is not read back. -/
theorem test_mode_noop (R : Rom) (c : CPU) (addr b d : Nat)
    (h1 : 0x4018 ≤ addr) (h2 : addr ≤ 0x401F) :
    cpu_write c addr b = (true, c) ∧
    cpu_read R c addr d = (true, d) ∧
    cpu_read R (cpu_write c addr b).2 addr d = (true, d) := by
  simp only [cpu_write, cpu_read, decode_test_mode h1 h2, and_self]

/-- Instance of C17: address `0x4018`, written byte `0xAB`, caller's byte `0x11`. -/
theorem test_mode_noop_witness :
    (0x4018 ≤ 0x4018 ∧ 0x4018 ≤ 0x401F) ∧
    cpu_write busyCPU 0x4018 0xAB = (true, busyCPU) ∧
    cpu_read emptyRom busyCPU 0x4018 0x11 = (true, 0x11) ∧
    cpu_read emptyRom (cpu_write busyCPU 0x4018 0xAB).2 0x4018 0x11 = (true, 0x11) :=
  ⟨by decide, test_mode_noop emptyRom busyCPU 0x4018 0xAB 0x11 (by decide) (by decide)⟩

/-- The Overflow bit after `SET_OVERFLOW_FLAG` from a clear bit, for operands that
fit 16 bits. -/
theorem overflow_set_iff (c : CPU) (value operand cin : Nat)
    (hclear : flagSet c.status overflow = false)
    (hv : value < 65536) (ho : operand < 65536) :
    flagSet (SET_OVERFLOW_FLAG c value operand cin).status overflow = true ↔
      ((value ≤ 0x7F ∧ value + operand + cin > 0x7F) ∨
       (value > 0x7F ∧ value + operand + cin > 0xFF)) := by
  have hov : overflow = 2 ^ 6 := by decide
  unfold SET_OVERFLOW_FLAG
  rw [Nat.mod_eq_of_lt hv, Nat.mod_eq_of_lt ho]
  split
  · rename_i h
    simp only [hov, flagSet_after_or _ 6 (by decide), true_iff]
    exact h
  · rename_i h
    simp only [hclear, Bool.false_eq_true, false_iff]
    exact h

/-- C18. Overflow set-condition matches the formula of the specification: for a
`Status` whose Overflow bit is clear, 8-bit `value` and `operand` and any incoming
carry, the Overflow bit after `SET_OVERFLOW_FLAG(value, operand, c)` is set iff
`(value <= 0x7F and sum > 0x7F) or (value > 0x7F and sum > 0xFF)`, with
`sum = value + operand + c` untruncated. -/
theorem overflow_matches_spec_formula (c : CPU) (value operand cin : Nat)
    (hclear : flagSet c.status overflow = false)
    (hv : value < 256) (ho : operand < 256) :
    flagSet (SET_OVERFLOW_FLAG c value operand cin).status overflow
      = specOverflowFormula value operand cin := by
  have key := overflow_set_iff c value operand cin hclear (by omega) (by omega)
  rw [Bool.eq_iff_iff, key]
  simp [specOverflowFormula]

/-- Instance of C18: `0xFF + 0x01 + 0` from `Status = 0x20`: the formula holds
(`0xFF > 0x7F` and the sum `0x100 > 0xFF`) and the bit is set. -/
theorem overflow_matches_spec_formula_witness :
    (flagSet (0x20 : Nat) overflow = false ∧ 0xFF < 256 ∧ 0x01 < 256) ∧
    specOverflowFormula 0xFF 0x01 0 = true ∧
    flagSet (SET_OVERFLOW_FLAG { zeroCPU with status := 0x20 } 0xFF 0x01 0).status overflow
      = specOverflowFormula 0xFF 0x01 0 :=
  ⟨by decide, by decide,
   overflow_matches_spec_formula { zeroCPU with status := 0x20 } 0xFF 0x01 0
     (by decide) (by decide) (by decide)⟩

theorem decode_apu_io_range {addr : Nat} (h : decode addr = Region.apu_io) :
    0x4000 ≤ addr ∧ addr ≤ 0x4017 := by
  unfold decode at h
  split_ifs at h with h1 h2 h3 h4 h5
  exact h3

theorem cpu_read_after_write_other (R : Rom) (c : CPU) (addr b a2 d : Nat)
    (hne : cellOf a2 ≠ cellOf addr) :
    cpu_read R (cpu_write c addr b).2 a2 d = cpu_read R c a2 d := by
  unfold cellOf at hne
  unfold cpu_read cpu_write
  cases hd : decode addr <;> cases hd2 : decode a2 <;> simp only [hd, hd2] at hne ⊢ <;>
    first
      | with_reducible rfl
      | (simp only [ne_eq, Option.some.injEq, Prod.mk.injEq, true_and] at hne
         simp only [store_other _ _ hne])

/-- C19. Write frame: `cpu_write(addr, b)` leaves `A`, `X`, `Y`, `PC`, `SP`, `Status`,
`cycles` (and `opcode`, `low`, `high`) unchanged; for `addr <= 0x1FFF` the new state
is the old one with `memory[addr & 0x07FF] = b`, for `0x2000..0x3FFF` with
`ppu_regs[(addr - 0x2000) mod 8] = b`, for `0x4000..0x4017` with
`apu_io_regs[addr - 0x4000] = b`, and for `addr >= 0x4018` the state is unchanged;
a `cpu_read` at an address resolving to a different cell returns the same flag and
byte before and after the write. -/
theorem write_frame (R : Rom) (c : CPU) (addr b : Nat) :
    ((cpu_write c addr b).2.a = c.a ∧ (cpu_write c addr b).2.x = c.x ∧
      (cpu_write c addr b).2.y = c.y ∧ (cpu_write c addr b).2.pc = c.pc ∧
      (cpu_write c addr b).2.sp = c.sp ∧ (cpu_write c addr b).2.status = c.status ∧
      (cpu_write c addr b).2.cycles = c.cycles ∧ (cpu_write c addr b).2.opcode = c.opcode ∧
      (cpu_write c addr b).2.low = c.low ∧ (cpu_write c addr b).2.high = c.high) ∧
    (addr ≤ 0x1FFF →
      (cpu_write c addr b).2 = { c with memory := store c.memory (addr &&& 0x07FF) b }) ∧
    (0x2000 ≤ addr ∧ addr ≤ 0x3FFF →
      (cpu_write c addr b).2 = { c with ppu_regs := store c.ppu_regs ((addr - 0x2000) % 8) b }) ∧
    (0x4000 ≤ addr ∧ addr ≤ 0x4017 →
      (cpu_write c addr b).2 = { c with apu_io_regs := store c.apu_io_regs (addr - 0x4000) b }) ∧
    (0x4018 ≤ addr → (cpu_write c addr b).2 = c) ∧
    (∀ i v, (store c.memory i v) i = v ∧ ∀ j, j ≠ i → (store c.memory i v) j = c.memory j) ∧
    (∀ a2 d, cellOf a2 ≠ cellOf addr →
      cpu_read R (cpu_write c addr b).2 a2 d = cpu_read R c a2 d) := by
  refine ⟨?_, ?_, ?_, ?_, ?_, ?_, ?_⟩
  · unfold cpu_write
    cases decode addr <;> simp
  · intro h
    simp only [cpu_write, decode_ram h, ramIndex]
  · intro h
    simp only [cpu_write, decode_ppu h.1 h.2, ppuIndex]
  · intro h
    simp only [cpu_write, decode_apu_io h.1 h.2, apuIndex]
  · intro h
    have hcases : (0x4018 ≤ addr ∧ addr ≤ 0x401F) ∨ (0x4020 ≤ addr ∧ addr ≤ 0xFFFF) ∨
        0xFFFF < addr := by omega
    rcases hcases with h1 | h1 | h1
    · simp only [cpu_write, decode_test_mode h1.1 h1.2]
    · simp only [cpu_write, decode_cartridge h1.1 h1.2]
    · simp only [cpu_write, decode_unmapped h1]
  · intro i v
    exact ⟨store_same _ _ _, fun j hj => store_other _ _ hj⟩
  · intro a2 d hne
    exact cpu_read_after_write_other R c addr b a2 d hne

/-- Instance of C19: a write at `0x0801` (cell `memory[1]`) changes no register and is
not seen by a read at `0x0002` (cell `memory[2]`). -/
theorem write_frame_witness :
    (0x0801 ≤ 0x1FFF ∧ cellOf 0x0002 ≠ cellOf 0x0801) ∧
    (cpu_write busyCPU 0x0801 0xAB).2
      = { busyCPU with memory := store busyCPU.memory (0x0801 &&& 0x07FF) 0xAB } ∧
    cpu_read emptyRom (cpu_write busyCPU 0x0801 0xAB).2 0x0002 0
      = cpu_read emptyRom busyCPU 0x0002 0 :=
  ⟨by decide,
   (write_frame emptyRom busyCPU 0x0801 0xAB).2.1 (by decide),
   (write_frame emptyRom busyCPU 0x0801 0xAB).2.2.2.2.2.2 0x0002 0 (by decide)⟩

/-- C20. Index bounds: for `addr <= 0x1FFF` the RAM index `addr & 0x07FF` is below
`0x0800`; for `0x2000..0x3FFF` the index `(addr - 0x2000) mod 8` is below 8; for
`0x4000..0x4017` the index `addr - 0x4000` is below `0x18`.  Whenever `cpu_read` or
`cpu_write` accesses an owned array, it does so at the index given by `cellOf`,
and with a RAM buffer of at least `0x0800` bytes that index is inside the array. -/
theorem index_bounds (R : Rom) (c : CPU) (addr ramLen : Nat) (hlen : 0x0800 ≤ ramLen) :
    (addr ≤ 0x1FFF → ramIndex addr < 0x0800) ∧
    (0x2000 ≤ addr ∧ addr ≤ 0x3FFF → ppuIndex addr < 8) ∧
    (0x4000 ≤ addr ∧ addr ≤ 0x4017 → apuIndex addr < 0x18) ∧
    (∀ r i, cellOf addr = some (r, i) →
      i < arrayLength ramLen r ∧
      (∀ d, cpu_read R c addr d = (true, arrayOf c r i)) ∧
      (∀ b, arrayOf (cpu_write c addr b).2 r = store (arrayOf c r) i b)) ∧
    (cellOf addr = none → ∀ b, (cpu_write c addr b).2 = c) := by
  have hram : ramIndex addr < 0x0800 := by
    rw [ramIndex_eq_mod]
    exact Nat.mod_lt _ (by decide)
  refine ⟨fun _ => hram, fun _ => ?_, fun h => ?_, ?_, ?_⟩
  · unfold ppuIndex
    omega
  · unfold apuIndex
    omega
  · intro r i hcell
    cases hd : decode addr with
    | ram =>
      simp only [cellOf, hd, Option.some.injEq, Prod.mk.injEq] at hcell
      obtain ⟨hr, hi⟩ := hcell
      subst hr
      subst hi
      refine ⟨?_, fun d => ?_, fun b => ?_⟩
      · show ramIndex addr < ramLen
        omega
      · simp only [cpu_read, hd, arrayOf]
      · simp only [cpu_write, hd, arrayOf]
    | ppu =>
      simp only [cellOf, hd, Option.some.injEq, Prod.mk.injEq] at hcell
      obtain ⟨hr, hi⟩ := hcell
      subst hr
      subst hi
      refine ⟨?_, fun d => ?_, fun b => ?_⟩
      · show ppuIndex addr < 8
        unfold ppuIndex
        omega
      · simp only [cpu_read, hd, arrayOf]
      · simp only [cpu_write, hd, arrayOf]
    | apu_io =>
      simp only [cellOf, hd, Option.some.injEq, Prod.mk.injEq] at hcell
      obtain ⟨hr, hi⟩ := hcell
      subst hr
      subst hi
      have hrange := decode_apu_io_range hd
      refine ⟨?_, fun d => ?_, fun b => ?_⟩
      · show apuIndex addr < 0x18
        unfold apuIndex
        omega
      · simp only [cpu_read, hd, arrayOf]
      · simp only [cpu_write, hd, arrayOf]
    | test_mode => simp [cellOf, hd] at hcell
    | cartridge => simp [cellOf, hd] at hcell
    | unmapped => simp [cellOf, hd] at hcell
  · intro hcell b
    cases hd : decode addr with
    | ram => simp [cellOf, hd] at hcell
    | ppu => simp [cellOf, hd] at hcell
    | apu_io => simp [cellOf, hd] at hcell
    | test_mode => simp only [cpu_write, hd]
    | cartridge => simp only [cpu_write, hd]
    | unmapped => simp only [cpu_write, hd]

/-- Instance of C20: address `0x1FFF` with a RAM buffer of exactly `0x0800` bytes. -/
theorem index_bounds_witness :
    ((0x0800 : Nat) ≤ 0x0800 ∧ (0x1FFF : Nat) ≤ 0x1FFF ∧
      cellOf 0x1FFF = some (Region.ram, 0x07FF)) ∧
    ramIndex 0x1FFF < 0x0800 ∧
    0x07FF < arrayLength 0x0800 Region.ram :=
  ⟨by decide,
   (index_bounds emptyRom zeroCPU 0x1FFF 0x0800 (by decide)).1 (by decide),
   ((index_bounds emptyRom zeroCPU 0x1FFF 0x0800 (by decide)).2.2.2.1
      Region.ram 0x07FF (by decide)).1⟩

end NES
